import Mathlib

/- Formal model of the `ch` tool (src/main.go): comma-based token
segmentation (`processSubcommands`), unambiguous-prefix subcommand dispatch
(`executeSubcommand`), the entry producers (`saySub`, `attachSub`,
`insertSub`, `execSub`, `pasteSub`) and the markdown renderer
(`generateMarkdown`).  All effects the program performs (file system stat,
file reads, directory walks, `scp`, subprocess execution, clipboard) are
modelled by an explicit environment `Env` of oracles, so every function is
total and executable.  A Go runtime panic (index out of range) is modelled
by the dedicated outcome `RunResult.panicked`, distinct from a returned
error. -/

namespace Ch

/- ### Go string primitives

The Go code uses `strings.TrimSpace`, `strings.HasSuffix(s, ",")`,
`strings.TrimSuffix(s, ",")`, `strings.HasPrefix`, `strings.Contains(s, ":")`,
`strings.SplitN(s, ":", 2)` and `strings.Join(args, " ")`.  They are embedded
as functions over a string's character list. -/

/-- Whitespace test of Go `unicode.IsSpace` (the Unicode White_Space
property, which is what `strings.TrimSpace` trims). -/
def goIsSpace (c : Char) : Bool :=
  c = ' ' || c = '\t' || c = '\n' || c = '\x0b' || c = '\x0c' || c = '\r' ||
  c = '\x85' || c = '\xa0' || c = '\u1680' ||
  ('\u2000' ≤ c && c ≤ '\u200a') ||
  c = '\u2028' || c = '\u2029' || c = '\u202f' || c = '\u205f' || c = '\u3000'

/-- Remove trailing whitespace characters from a character list. -/
def dropTrailingSpace (l : List Char) : List Char :=
  (l.reverse.dropWhile goIsSpace).reverse

/-- Remove leading and trailing whitespace (Go `strings.TrimSpace`; trimming
the two ends commutes, here the trailing end is trimmed first). -/
def trimList (l : List Char) : List Char :=
  (dropTrailingSpace l).dropWhile goIsSpace

/-- Go `strings.TrimSpace`. -/
def goTrimSpace (s : String) : String := ⟨trimList s.data⟩

/-- Go `strings.HasSuffix(s, ",")`: the last character is a comma. -/
def goHasSuffixComma (s : String) : Bool :=
  match s.data.getLast? with
  | some c => c = ','
  | none => false

/-- Go `strings.TrimSuffix(s, ",")`: drop a trailing comma if present. -/
def goTrimSuffixComma (s : String) : String :=
  if goHasSuffixComma s then ⟨s.data.dropLast⟩ else s

/-- Does the first list start with the second one (character lists)? -/
def goStartsWithList : List Char → List Char → Bool
  | _, [] => true
  | [], _ :: _ => false
  | a :: as, b :: bs => a = b && goStartsWithList as bs

/-- Go `strings.HasPrefix(s, pre)`. -/
def goStartsWith (s pre : String) : Bool := goStartsWithList s.data pre.data

/-- Go `strings.Contains(s, ":")`. -/
def goContainsColon (s : String) : Bool := s.data.any (fun c => c = ':')

/-- Split a character list at the first occurrence of `c`; `none` when `c`
does not occur. -/
def splitFirst (c : Char) : List Char → Option (List Char × List Char)
  | [] => none
  | x :: xs =>
    if x = c then some ([], xs)
    else
      match splitFirst c xs with
      | none => none
      | some (p, q) => some (x :: p, q)

/-- Go `strings.SplitN(s, ":", 2)`: split at the first colon into at most
two pieces. -/
def goSplitN2Colon (s : String) : List String :=
  match splitFirst ':' s.data with
  | none => [s]
  | some (p, q) => [⟨p⟩, ⟨q⟩]

/-- Go `strings.Join(args, " ")`. -/
def goJoinSpace : List String → String
  | [] => ""
  | [a] => a
  | a :: b :: rest => a ++ " " ++ goJoinSpace (b :: rest)

/- ### Data model -/

/-- The closed entry variant set: `messageEntry`, `fileEntry`, `outputEntry`
of main.go, as one sum type. -/
inductive Entry
  | message (text : String)
  | file (storagePath originalPath : String)
  | output (text : String)
deriving DecidableEq, Repr

/-- The error values the pipeline can return (each constructor corresponds
to one `fmt.Errorf` site in main.go).  `subcommandWrap` is the wrapping
`failed to execute subcommand %s: %v` applied by `processSubcommands` on
the trailing-comma flush path. -/
inductive ChError
  | noSubcommandProvided
  | unknownSubcommand (command : String)
  | ambiguousSubcommand (command : String)
  | subcommandWrap (args : List String) (e : ChError)
  | fileNotFound (path : String)
  | invalidRemotePath (path : String)
  | remoteCopyFailed (hostname remotePath : String)
  | walkFailed (path : String)
  | readFailed (path : String)
  | commandFailed (msg : String)
deriving DecidableEq, Repr

/-- Outcome of running a piece of the pipeline: a Go `(value, nil)` return,
a Go `(nil, err)` return, or a Go runtime panic (which returns nothing and
aborts the process). -/
inductive RunResult (α : Type)
  | ok (value : α)
  | err (e : ChError)
  | panicked
deriving DecidableEq, Repr

/-- Did the computation return normally? -/
def RunResult.isOk : RunResult α → Bool
  | .ok _ => true
  | _ => false

/-- Did the computation return an error value? -/
def RunResult.isErr : RunResult α → Bool
  | .err _ => true
  | _ => false

/-- Result of `os.Stat`: the only field the code consults is `IsDir`. -/
structure FileStat where
  isDir : Bool
deriving DecidableEq, Repr

/-- One entry visited by `filepath.Walk`: its path, whether it is a
directory, and its base name (consulted for the hidden-file check). -/
structure WalkItem where
  path : String
  isDir : Bool
  name : String
deriving DecidableEq, Repr

/-- The external collaborators of the program, as oracles: `stat` and
`readFile` return `none` on failure, `walk` lists the items `filepath.Walk`
visits (or `none` if the walk fails), `scp hostname remotePath` returns the
staged temporary file name (or `none` if `os.CreateTemp` or the `scp`
subprocess fails), `runCommand prog args` is `cmd.Output()` (stdout, or an
error message on non-zero exit / launch failure), and `clipboard` is the
current clipboard text. -/
structure Env where
  stat : String → Option FileStat
  readFile : String → Option String
  walk : String → Option (List WalkItem)
  scp : String → String → Option String
  runCommand : String → List String → Except String String
  clipboard : String

/- ### Entry producers (main.go `saySub` .. `pasteSub`) -/

/-- `saySub`: joins all arguments with single spaces into one message
entry; never fails. -/
def saySub (env : Env) (args : List String) : RunResult (List Entry) :=
  .ok [Entry.message (goJoinSpace args)]

/-- `attachSub`: for each argument, a path containing `:` is split at the
first colon into `hostname:remotePath` and staged via `scp` (failure:
`remoteCopyFailed`); the `SplitN` result is checked for length 2 and the
dead branch returns `invalidRemotePath`.  A local path is `stat`ed
(failure: `fileNotFound`); a directory is walked, keeping non-directory
items whose name does not start with `.`; a regular file becomes one
`Entry.file` with equal storage and original paths.  The Go loop
accumulates entries and returns the first error with no entries. -/
def attachSub (env : Env) : List String → RunResult (List Entry)
  | [] => .ok []
  | filePath :: rest =>
    if goContainsColon filePath then
      match goSplitN2Colon filePath with
      | [hostname, remotePath] =>
        match env.scp hostname remotePath with
        | some tempFile =>
          match attachSub env rest with
          | .ok es => .ok (Entry.file tempFile (hostname ++ ":" ++ remotePath) :: es)
          | r => r
        | none => .err (.remoteCopyFailed hostname remotePath)
      | _ => .err (.invalidRemotePath filePath)
    else
      match env.stat filePath with
      | none => .err (.fileNotFound filePath)
      | some info =>
        if info.isDir then
          match env.walk filePath with
          | none => .err (.walkFailed filePath)
          | some items =>
            match attachSub env rest with
            | .ok es =>
              .ok (((items.filter (fun it => !it.isDir && !(goStartsWith it.name "."))).map
                (fun it => Entry.file it.path it.path)) ++ es)
            | r => r
        else
          match attachSub env rest with
          | .ok es => .ok (Entry.file filePath filePath :: es)
          | r => r

/-- `insertSub`: same remote-path resolution as `attachSub`, but the file
content is read immediately and emitted as one message entry per
argument. -/
def insertSub (env : Env) : List String → RunResult (List Entry)
  | [] => .ok []
  | filePath :: rest =>
    if goContainsColon filePath then
      match goSplitN2Colon filePath with
      | [hostname, remotePath] =>
        match env.scp hostname remotePath with
        | some tempFile =>
          match env.readFile tempFile with
          | some content =>
            match insertSub env rest with
            | .ok es => .ok (Entry.message content :: es)
            | r => r
          | none => .err (.readFailed tempFile)
        | none => .err (.remoteCopyFailed hostname remotePath)
      | _ => .err (.invalidRemotePath filePath)
    else
      match env.readFile filePath with
      | some content =>
        match insertSub env rest with
        | .ok es => .ok (Entry.message content :: es)
        | r => r
      | none => .err (.readFailed filePath)

/-- `execSub`: `exec.Command(args[0], args[1:]...)` — the index `args[0]`
is evaluated before any emptiness check, so an empty argument list is a Go
runtime panic (index out of range), not an error return.  Otherwise the
whole argument list is handed to the process collaborator; captured stdout
becomes one output entry, and a non-zero exit or launch failure becomes
`commandFailed`. -/
def execSub (env : Env) (args : List String) : RunResult (List Entry) :=
  match args with
  | [] => RunResult.panicked
  | prog :: rest =>
    match env.runCommand prog rest with
    | .ok out => .ok [Entry.output out]
    | .error msg => .err (.commandFailed msg)

/-- `pasteSub`: emits the clipboard text as one message entry. -/
def pasteSub (env : Env) (args : List String) : RunResult (List Entry) :=
  .ok [Entry.message env.clipboard]

/- ### Registry and dispatch (main.go `subcommands`, `executeSubcommand`) -/

/-- Tag for each registered producer. -/
inductive SubName
  | say
  | attach
  | insert
  | exec
  | paste
deriving DecidableEq, Repr

/-- The producer a tag names. -/
def runSub : SubName → Env → List String → RunResult (List Entry)
  | .say => saySub
  | .attach => fun env args => attachSub env args
  | .insert => fun env args => insertSub env args
  | .exec => execSub
  | .paste => pasteSub

/-- The fixed ordered registry `var subcommands`. -/
def subcommands : List (String × SubName) :=
  [("say", .say), ("attach", .attach), ("insert", .insert),
   ("exec", .exec), ("paste", .paste)]

/-- The registry entries whose full name starts with the candidate
(`strings.HasPrefix(sub.name, command)`). -/
def matchesFor (command : String) : List (String × SubName) :=
  subcommands.filter (fun sub => goStartsWith sub.1 command)

/-- `executeSubcommand`: an empty segment fails with `no subcommand
provided`; otherwise the first token is the candidate, zero prefix matches
fail with `unknown subcommand`, several with `ambiguous subcommand`, and a
unique match runs its producer on the remaining tokens. -/
def executeSubcommand (env : Env) (args : List String) : RunResult (List Entry) :=
  match args with
  | [] => .err .noSubcommandProvided
  | command :: rest =>
    match matchesFor command with
    | [] => .err (.unknownSubcommand command)
    | [m] => runSub m.2 env rest
    | _ => .err (.ambiguousSubcommand command)

/- ### Segmenter and pipeline (main.go `processSubcommands`) -/

/-- The flush lists `processSubcommands` passes to `executeSubcommand`,
extracted as a pure function of the token list: each token is trimmed; a
token with a trailing comma strips the comma, appends the remainder if
non-empty, and flushes the accumulator (even when empty); any other token
is appended; a non-empty accumulator is flushed at the end. -/
def segmentAux (acc : List String) : List String → List (List String)
  | [] => if acc.isEmpty then [] else [acc]
  | arg :: rest =>
    let a := goTrimSpace arg
    if goHasSuffixComma a then
      let w := goTrimSuffixComma a
      let acc2 := if w.data.isEmpty then acc else acc ++ [w]
      acc2 :: segmentAux [] rest
    else segmentAux (acc ++ [a]) rest

/-- Segmentation of a full token list (empty initial accumulator). -/
def segment (args : List String) : List (List String) :=
  segmentAux [] args

/-- Loop body of `processSubcommands`, carrying the current accumulator and
the entries produced so far.  Errors on the trailing-comma flush path are
wrapped (`failed to execute subcommand %s: %v`); the final-flush error is
returned unchanged; every error return carries no entries (Go returns
`nil, err`). -/
def processAux (env : Env) (acc : List String) (entries : List Entry) :
    List String → RunResult (List Entry)
  | [] =>
    if acc.isEmpty then .ok entries
    else
      match executeSubcommand env acc with
      | .ok es => .ok (entries ++ es)
      | .err e => .err e
      | .panicked => .panicked
  | arg :: rest =>
    let a := goTrimSpace arg
    if goHasSuffixComma a then
      let w := goTrimSuffixComma a
      let acc2 := if w.data.isEmpty then acc else acc ++ [w]
      match executeSubcommand env acc2 with
      | .ok es => processAux env [] (entries ++ es) rest
      | .err e => .err (.subcommandWrap acc2 e)
      | .panicked => .panicked
    else processAux env (acc ++ [a]) entries rest

/-- `processSubcommands`. -/
def processSubcommands (env : Env) (args : List String) : RunResult (List Entry) :=
  processAux env [] [] args

/- ### Renderer (main.go `renderMarkdown` methods and `generateMarkdown`) -/

/-- `renderMarkdown` of each entry variant.  A message or output entry is
its trimmed text plus one newline.  A file entry is the original path in
single backticks on its own line, an opening fence, the raw bytes read from
the storage path at render time, and the closing fence plus newline; if the
read fails the method logs a warning and returns the empty string. -/
def renderMarkdown (env : Env) : Entry → String
  | .message text => goTrimSpace text ++ "\n"
  | .file storagePath originalPath =>
    match env.readFile storagePath with
    | some content =>
      "`" ++ originalPath ++ "`\n" ++ "```\n" ++ content ++ "```\n"
    | none => ""
  | .output text => goTrimSpace text ++ "\n"

/-- The builder loop of `generateMarkdown`: each fragment followed by one
extra newline as a paragraph break. -/
def concatEntries (env : Env) : List Entry → String
  | [] => ""
  | e :: es => (renderMarkdown env e ++ "\n") ++ concatEntries env es

/-- `generateMarkdown`: the concatenation, trimmed, plus exactly one
trailing newline. -/
def generateMarkdown (env : Env) (entries : List Entry) : String :=
  goTrimSpace (concatEntries env entries) ++ "\n"

/-- The fragments joined with a single `"\n"` separator (each fragment ends
with its own newline, so the separator makes one blank line between
consecutive fragments). -/
def sepByNl : List String → String
  | [] => ""
  | [f] => f
  | f :: g :: fs => f ++ "\n" ++ sepByNl (g :: fs)

/- ### A concrete environment used by the witnesses -/

/-- Concrete oracle environment: the only readable file is `f1` with
content `hello`, the only command that succeeds is `echo` (stdout
`hi`), every stat / walk / scp fails, and the clipboard is empty. -/
def env0 : Env where
  stat := fun _ => none
  readFile := fun p => if p = "f1" then some "hello" else none
  walk := fun _ => none
  scp := fun _ _ => none
  runCommand := fun prog _ => if prog = "echo" then Except.ok "hi\n" else Except.error "exit status 1"
  clipboard := ""

/- ### Helper lemmas about the string primitives -/

theorem head?_dropWhile_false {α : Type} (p : α → Bool) (l : List α) {c : α}
    (h : (l.dropWhile p).head? = some c) : p c = false := by
  induction l with
  | nil => simp [List.dropWhile] at h
  | cons x xs ih =>
    rw [List.dropWhile_cons] at h
    by_cases hx : p x
    · rw [if_pos hx] at h
      exact ih h
    · rw [if_neg hx] at h
      simp at h
      subst h
      cases hpc : p x with
      | false => rfl
      | true => exact absurd hpc hx

theorem getLast?_dropWhile {α : Type} (p : α → Bool) (l : List α)
    (h : l.dropWhile p ≠ []) : (l.dropWhile p).getLast? = l.getLast? := by
  induction l with
  | nil => simp [List.dropWhile] at h
  | cons x xs ih =>
    rw [List.dropWhile_cons] at h ⊢
    by_cases hx : p x
    · rw [if_pos hx] at h ⊢
      cases xs with
      | nil => simp [List.dropWhile] at h
      | cons y ys => rw [ih h, List.getLast?_cons_cons]
    · rw [if_neg hx]

/-- The head of a trimmed string is not whitespace. -/
theorem trimList_no_leading (l : List Char) {c : Char}
    (h : (trimList l).head? = some c) : goIsSpace c = false :=
  head?_dropWhile_false goIsSpace (dropTrailingSpace l) h

/-- The last character of a trimmed string is not whitespace. -/
theorem trimList_no_trailing (l : List Char) {c : Char}
    (h : (trimList l).getLast? = some c) : goIsSpace c = false := by
  have hne : (dropTrailingSpace l).dropWhile goIsSpace ≠ [] := by
    intro h0
    rw [trimList] at h
    rw [h0] at h
    simp at h
  rw [trimList, getLast?_dropWhile _ _ hne, dropTrailingSpace,
    List.getLast?_reverse] at h
  exact head?_dropWhile_false goIsSpace l.reverse h

/-- Appending one whitespace character does not change the trimmed value. -/
theorem trimList_append_space (l : List Char) (c : Char) (hc : goIsSpace c = true) :
    trimList (l ++ [c]) = trimList l := by
  rw [trimList, trimList, dropTrailingSpace, dropTrailingSpace,
    List.reverse_append]
  simp [List.dropWhile_cons, hc]

/-- String-level version: a trailing newline is absorbed by `TrimSpace`. -/
theorem goTrimSpace_append_nl (s : String) : goTrimSpace (s ++ "\n") = goTrimSpace s := by
  rw [goTrimSpace, goTrimSpace, String.data_append]
  exact congrArg String.mk (trimList_append_space s.data '\n' rfl)

theorem goTrimSpace_data (s : String) : (goTrimSpace s).data = trimList s.data := rfl

/-- A string that contains a colon splits at the first colon. -/
theorem splitFirst_of_any (c : Char) (l : List Char)
    (h : l.any (fun x => x = c) = true) : ∃ p q, splitFirst c l = some (p, q) := by
  induction l with
  | nil => simp at h
  | cons x xs ih =>
    by_cases hx : x = c
    · exact ⟨[], xs, by simp [splitFirst, hx]⟩
    · have h2 : xs.any (fun x => x = c) = true := by
        rw [List.any_cons] at h
        rcases (Bool.or_eq_true _ _).mp h with h1 | h1
        · exact absurd (of_decide_eq_true h1) hx
        · exact h1
      obtain ⟨p, q, hpq⟩ := ih h2
      exact ⟨x :: p, q, by simp [splitFirst, hx, hpq]⟩

/-- Go `SplitN(s, ":", 2)` on a string containing a colon: exactly two parts. -/
theorem goSplitN2Colon_two (s : String) (h : goContainsColon s = true) :
    ∃ p q, goSplitN2Colon s = [p, q] := by
  obtain ⟨p, q, hpq⟩ := splitFirst_of_any ':' s.data h
  exact ⟨⟨p⟩, ⟨q⟩, by rw [goSplitN2Colon, hpq]⟩

/- ### Renderer lemmas -/

/-- The builder loop equals the fragments joined by one extra newline, with
one trailing newline when there is at least one fragment. -/
theorem concatEntries_eq (env : Env) (es : List Entry) :
    concatEntries env es =
      if es.isEmpty then "" else sepByNl (es.map (renderMarkdown env)) ++ "\n" := by
  induction es with
  | nil => rfl
  | cons e es ih =>
    cases es with
    | nil =>
      show (renderMarkdown env e ++ "\n") ++ concatEntries env [] = _
      rw [show concatEntries env [] = "" from rfl]
      simp [sepByNl, String.append_empty]
    | cons f fs =>
      show (renderMarkdown env e ++ "\n") ++ concatEntries env (f :: fs) = _
      rw [ih]
      simp [sepByNl, String.append_assoc]

/- ### Segmenter lemmas -/

/-- With no trailing comma on any trimmed token, tokens only accumulate:
one final flush of the extended accumulator (when non-empty). -/
theorem segmentAux_no_comma (args : List String) :
    ∀ acc : List String,
      (∀ t ∈ args, goHasSuffixComma (goTrimSpace t) = false) →
      segmentAux acc args =
        if (acc ++ args.map goTrimSpace).isEmpty then []
        else [acc ++ args.map goTrimSpace] := by
  induction args with
  | nil =>
    intro acc _
    simp [segmentAux]
  | cons a rest ih =>
    intro acc h
    have ha : goHasSuffixComma (goTrimSpace a) = false := h a (by simp)
    have hr : ∀ t ∈ rest, goHasSuffixComma (goTrimSpace t) = false :=
      fun t ht => h t (by simp [ht])
    simp only [segmentAux]
    rw [if_neg (by simp [ha])]
    rw [ih (acc ++ [goTrimSpace a]) hr]
    simp

/- ### Pipeline lemmas -/

/-- If the loop returns normally, the execution of every flushed segment
returned normally. -/
theorem processAux_ok_segments (env : Env) (args : List String) :
    ∀ acc entries res,
      processAux env acc entries args = RunResult.ok res →
      ∀ seg ∈ segmentAux acc args, (executeSubcommand env seg).isOk = true := by
  induction args with
  | nil =>
    intro acc entries res h seg hseg
    rw [segmentAux] at hseg
    rw [processAux] at h
    by_cases ha : acc.isEmpty
    · rw [if_pos ha] at hseg
      simp at hseg
    · rw [if_neg ha] at hseg h
      simp at hseg
      subst hseg
      cases hx : executeSubcommand env seg with
      | ok es => simp [RunResult.isOk]
      | err e => rw [hx] at h; exact RunResult.noConfusion h
      | panicked => rw [hx] at h; exact RunResult.noConfusion h
  | cons arg rest ih =>
    intro acc entries res h seg hseg
    simp only [segmentAux] at hseg
    simp only [processAux] at h
    by_cases hs : goHasSuffixComma (goTrimSpace arg) = true
    · rw [if_pos hs] at hseg h
      rw [List.mem_cons] at hseg
      cases hx : executeSubcommand env
          (if (goTrimSuffixComma (goTrimSpace arg)).data.isEmpty then acc
           else acc ++ [goTrimSuffixComma (goTrimSpace arg)]) with
      | ok es =>
        rw [hx] at h
        rcases hseg with hseg | hseg
        · subst hseg
          rw [hx]
          rfl
        · exact ih [] (entries ++ es) res h seg hseg
      | err e => rw [hx] at h; exact RunResult.noConfusion h
      | panicked => rw [hx] at h; exact RunResult.noConfusion h
    · rw [if_neg hs] at hseg h
      exact ih (acc ++ [goTrimSpace arg]) entries res h seg hseg

/-- If the flushes reach a segment whose execution returns an error while
every earlier flushed segment's execution returned normally, the loop
returns an error. -/
theorem processAux_first_err (env : Env) (args : List String) :
    ∀ acc entries pre seg post,
      segmentAux acc args = pre ++ seg :: post →
      (∀ s ∈ pre, (executeSubcommand env s).isOk = true) →
      (executeSubcommand env seg).isErr = true →
      ∃ e, processAux env acc entries args = RunResult.err e := by
  induction args with
  | nil =>
    intro acc entries pre seg post hsegs hpre herr
    rw [segmentAux] at hsegs
    by_cases ha : acc.isEmpty
    · rw [if_pos ha] at hsegs
      cases pre <;> simp at hsegs
    · rw [if_neg ha] at hsegs
      cases pre with
      | cons p pre' => simp at hsegs
      | nil =>
        rw [List.nil_append] at hsegs
        injection hsegs with h1 h2
        rw [← h1] at herr
        cases hx : executeSubcommand env acc with
        | ok es => rw [hx] at herr; exact Bool.noConfusion herr
        | panicked => rw [hx] at herr; exact Bool.noConfusion herr
        | err e =>
          refine ⟨e, ?_⟩
          rw [processAux, if_neg ha, hx]
  | cons arg rest ih =>
    intro acc entries pre seg post hsegs hpre herr
    simp only [segmentAux] at hsegs
    simp only [processAux]
    by_cases hs : goHasSuffixComma (goTrimSpace arg) = true
    · rw [if_pos hs] at hsegs ⊢
      cases pre with
      | nil =>
        rw [List.nil_append] at hsegs
        injection hsegs with h1 h2
        rw [← h1] at herr
        cases hx : executeSubcommand env
            (if (goTrimSuffixComma (goTrimSpace arg)).data.isEmpty then acc
             else acc ++ [goTrimSuffixComma (goTrimSpace arg)]) with
        | ok es => rw [hx] at herr; exact Bool.noConfusion herr
        | panicked => rw [hx] at herr; exact Bool.noConfusion herr
        | err e => exact ⟨.subcommandWrap _ e, rfl⟩
      | cons p pre' =>
        simp only [List.cons_append, List.cons.injEq] at hsegs
        obtain ⟨h1, h2⟩ := hsegs
        have hok : (executeSubcommand env p).isOk = true := hpre p (by simp)
        rw [← h1] at hok
        cases hx : executeSubcommand env
            (if (goTrimSuffixComma (goTrimSpace arg)).data.isEmpty then acc
             else acc ++ [goTrimSuffixComma (goTrimSpace arg)]) with
        | ok es =>
          obtain ⟨e, he⟩ :=
            ih [] (entries ++ es) pre' seg post h2
              (fun s hsm => hpre s (by simp [hsm])) herr
          exact ⟨e, he⟩
        | err e => rw [hx] at hok; exact Bool.noConfusion hok
        | panicked => rw [hx] at hok; exact Bool.noConfusion hok
    · rw [if_neg hs] at hsegs ⊢
      exact ih (acc ++ [goTrimSpace arg]) entries pre seg post hsegs hpre herr

/- ### Producer lemmas for claim C10 -/

/-- `attachSub` never takes the dead `invalid remote file path` branch. -/
theorem attachSub_no_invalid (env : Env) (args : List String) (p : String) :
    attachSub env args ≠ RunResult.err (ChError.invalidRemotePath p) := by
  induction args with
  | nil => simp [attachSub]
  | cons filePath rest ih =>
    simp only [attachSub]
    split
    next hc =>
      obtain ⟨a, b, hab⟩ := goSplitN2Colon_two filePath hc
      split
      next hostname remotePath heq =>
        cases hscp : env.scp hostname remotePath with
        | some tempFile =>
          simp only [hscp]
          cases hrec : attachSub env rest with
          | ok es => simp
          | err e => simpa [hrec] using ih
          | panicked => simp [hrec]
        | none => simp [hscp]
      next hne =>
        exact absurd hab (by intro h0; exact hne a b h0)
    next hc =>
      cases hstat : env.stat filePath with
      | none => simp [hstat]
      | some info =>
        simp only [hstat]
        by_cases hdir : info.isDir = true
        · rw [if_pos hdir]
          cases hwalk : env.walk filePath with
          | none => simp
          | some items =>
            simp only []
            cases hrec : attachSub env rest with
            | ok es => simp
            | err e => simpa [hrec] using ih
            | panicked => simp [hrec]
        · rw [if_neg hdir]
          cases hrec : attachSub env rest with
          | ok es => simp
          | err e => simpa [hrec] using ih
          | panicked => simp [hrec]

/-- `insertSub` never takes the dead `invalid remote file path` branch. -/
theorem insertSub_no_invalid (env : Env) (args : List String) (p : String) :
    insertSub env args ≠ RunResult.err (ChError.invalidRemotePath p) := by
  induction args with
  | nil => simp [insertSub]
  | cons filePath rest ih =>
    simp only [insertSub]
    split
    next hc =>
      obtain ⟨a, b, hab⟩ := goSplitN2Colon_two filePath hc
      split
      next hostname remotePath heq =>
        cases hscp : env.scp hostname remotePath with
        | some tempFile =>
          simp only [hscp]
          cases hread : env.readFile tempFile with
          | some content =>
            simp only [hread]
            cases hrec : insertSub env rest with
            | ok es => simp
            | err e => simpa [hrec] using ih
            | panicked => simp [hrec]
          | none => simp [hread]
        | none => simp [hscp]
      next hne =>
        exact absurd hab (by intro h0; exact hne a b h0)
    next hc =>
      cases hread : env.readFile filePath with
      | some content =>
        simp only [hread]
        cases hrec : insertSub env rest with
        | ok es => simp
        | err e => simpa [hrec] using ih
        | panicked => simp [hrec]
      | none => simp [hread]

/- ### Claims -/

/-- C1 counterexample: a comma token arriving while the accumulator is
empty is not absorbed — it flushes an empty segment and processing the
token sequence `[","]` raises an error (the wrapped `no subcommand
provided`), contradicting the claim that no empty segment is produced and
no error is raised. -/
theorem c1_counterexample :
    segment [","] = [[]] ∧
    processSubcommands env0 [","] =
      RunResult.err (ChError.subcommandWrap [] ChError.noSubcommandProvided) :=
  ⟨rfl, rfl⟩

/-- C1 (amended): a token that is exactly `,` closes the current segment by
flushing the accumulator unconditionally — even when it is empty.  A comma
token arriving while the accumulator is empty (consecutive commas
included) therefore flushes an empty segment, and executing that empty
segment fails with the wrapped `no subcommand provided` error instead of
being absorbed. -/
theorem c1_comma_flushes_even_when_empty (env : Env) (acc : List String)
    (rest : List String) (entries : List Entry) :
    segmentAux acc ("," :: rest) = acc :: segmentAux [] rest ∧
    (acc = [] →
      processAux env acc entries ("," :: rest) =
        RunResult.err (ChError.subcommandWrap [] ChError.noSubcommandProvided)) := by
  constructor
  · rfl
  · intro h
    subst h
    rfl

/-- Witness for the amended C1 at the concrete input `[","]`. -/
theorem c1_witness :
    processAux env0 [] [] [","] =
      RunResult.err (ChError.subcommandWrap [] ChError.noSubcommandProvided) :=
  (c1_comma_flushes_even_when_empty env0 [] [] []).2 rfl

/-- C2: a non-empty token sequence in which no (trimmed) token ends with a
comma segments into exactly one segment: the whole input sequence, each
token trimmed of surrounding whitespace. -/
theorem c2_no_commas_single_segment (tokens : List String)
    (hne : tokens ≠ [])
    (hnc : ∀ t ∈ tokens, goHasSuffixComma (goTrimSpace t) = false) :
    segment tokens = [tokens.map goTrimSpace] := by
  have h := segmentAux_no_comma tokens [] hnc
  cases tokens with
  | nil => exact absurd rfl hne
  | cons a rest => simpa [segment] using h

/-- Witness for C2: a two-token comma-free sequence yields one segment. -/
theorem c2_witness :
    segment ["say", "hi"] = [(["say", "hi"]).map goTrimSpace] ∧
    (["say", "hi"]).map goTrimSpace = ["say", "hi"] :=
  ⟨c2_no_commas_single_segment ["say", "hi"] (by decide) (by decide), by rfl⟩

/-- C3: dispatch resolves the first token against the fixed registry by
case-sensitive prefix matching: zero matches fail with unknown subcommand,
several matches fail with ambiguous subcommand, and a unique match invokes
that producer on the remaining tokens; in particular `at` matches exactly
`attach` and `s` matches exactly `say`. -/
theorem c3_prefix_dispatch (env : Env) (command : String) (args : List String) :
    (matchesFor command = [] →
      executeSubcommand env (command :: args) =
        RunResult.err (ChError.unknownSubcommand command)) ∧
    (∀ m1 m2 ms, matchesFor command = m1 :: m2 :: ms →
      executeSubcommand env (command :: args) =
        RunResult.err (ChError.ambiguousSubcommand command)) ∧
    (∀ m, matchesFor command = [m] →
      executeSubcommand env (command :: args) = runSub m.2 env args) ∧
    matchesFor "at" = [("attach", SubName.attach)] ∧
    matchesFor "s" = [("say", SubName.say)] := by
  refine ⟨?_, ?_, ?_, rfl, rfl⟩
  · intro h
    simp only [executeSubcommand, h]
  · intro m1 m2 ms h
    simp only [executeSubcommand, h]
  · intro m h
    simp only [executeSubcommand, h]

/-- Witness for C3: an unknown candidate and the two concrete resolutions. -/
theorem c3_witness :
    executeSubcommand env0 ["zz"] = RunResult.err (ChError.unknownSubcommand "zz") :=
  (c3_prefix_dispatch env0 "zz" []).1 rfl

/-- C4: the rendered document equals the fragments joined with one blank
line between consecutive fragments (each fragment carries its own trailing
newline, and the join inserts one extra), trimmed, plus exactly one
trailing newline; the result therefore starts and ends with no whitespace
other than the single final newline, and the empty entry sequence renders
to the one-character string of a newline. -/
theorem c4_render_format (env : Env) (entries : List Entry) :
    generateMarkdown env entries =
      goTrimSpace (sepByNl (entries.map (renderMarkdown env))) ++ "\n" ∧
    (∃ t, (generateMarkdown env entries).data = t ++ ['\n'] ∧
      (∀ c, t.head? = some c → goIsSpace c = false) ∧
      (∀ c, t.getLast? = some c → goIsSpace c = false)) ∧
    generateMarkdown env [] = "\n" := by
  refine ⟨?_, ?_, rfl⟩
  · rw [generateMarkdown, concatEntries_eq]
    cases entries with
    | nil => rfl
    | cons e es =>
      rw [if_neg (by simp), goTrimSpace_append_nl]
  · refine ⟨trimList (concatEntries env entries).data, ?_, ?_, ?_⟩
    · rw [generateMarkdown, String.data_append, goTrimSpace_data]
    · exact fun c h => trimList_no_leading _ h
    · exact fun c h => trimList_no_trailing _ h

/-- Witness for C4: the empty entry sequence at the concrete environment. -/
theorem c4_witness : generateMarkdown env0 [] = "\n" :=
  (c4_render_format env0 []).2.2

/-- C5: errors abort the whole run with no partial success.  If processing
returns normally then every flushed segment's execution returned normally;
and if the flushed segments reach one whose dispatch or producer returns
an error (all earlier segments succeeding), processing the whole token
sequence returns an error — and an error return carries no entry list (the
Go code returns `nil, err`; the `RunResult.err` constructor has no entry
component). -/
theorem c5_failure_aborts (env : Env) (args : List String) :
    (∀ res, processSubcommands env args = RunResult.ok res →
      ∀ seg ∈ segment args, (executeSubcommand env seg).isOk = true) ∧
    (∀ pre seg post,
      segment args = pre ++ seg :: post →
      (∀ s ∈ pre, (executeSubcommand env s).isOk = true) →
      (executeSubcommand env seg).isErr = true →
      ∃ e, processSubcommands env args = RunResult.err e) :=
  ⟨fun res h => processAux_ok_segments env args [] [] res h,
   fun pre seg post h1 h2 h3 =>
     processAux_first_err env args [] [] pre seg post h1 h2 h3⟩

/-- Witness for C5: attaching the nonexistent path `nope` after a
successful `say` segment aborts the run with an error. -/
theorem c5_witness :
    ∃ e, processSubcommands env0 ["say", "hi", ",", "attach", "nope"] = RunResult.err e :=
  (c5_failure_aborts env0 ["say", "hi", ",", "attach", "nope"]).2
    [["say", "hi"]] ["attach", "nope"] [] rfl (by decide) (by decide)

/-- C6: for a non-empty argument list, exec hands the entire argument list
to the external process collaborator, captures its standard output into
exactly one Output entry, and fails with commandFailed exactly when the
collaborator reports a non-zero exit or launch failure. -/
theorem c6_exec_captures_output (env : Env) (prog : String) (rest : List String) :
    (∀ out, env.runCommand prog rest = Except.ok out →
      execSub env (prog :: rest) = RunResult.ok [Entry.output out]) ∧
    (∀ msg, env.runCommand prog rest = Except.error msg →
      execSub env (prog :: rest) = RunResult.err (ChError.commandFailed msg)) ∧
    ((execSub env (prog :: rest)).isErr = true ↔
      ∃ msg, env.runCommand prog rest = Except.error msg) := by
  refine ⟨?_, ?_, ?_⟩
  · intro out h
    simp only [execSub, h]
  · intro msg h
    simp only [execSub, h]
  · cases hx : env.runCommand prog rest with
    | ok out => simp [execSub, hx, RunResult.isErr]
    | error msg => simp [execSub, hx, RunResult.isErr]

/-- Witness for C6: a successful command and a failing one at `env0`. -/
theorem c6_witness :
    execSub env0 ["echo", "x"] = RunResult.ok [Entry.output "hi\n"] :=
  (c6_exec_captures_output env0 "echo" ["x"]).1 "hi\n" rfl

/-- C7: a trailing comma attaches only to the token it trails: the comma is
stripped, the remainder ends the current segment, and later tokens start a
new segment. -/
theorem c7_trailing_comma_splits :
    segment ["say", "a,", "b"] = [["say", "a"], ["b"]] := rfl

/-- C9: the exec producer evaluates `args[0]` on an empty argument list
before any emptiness check, so the segment consisting of only the token
`exec` makes the run panic with an index-out-of-range — it does not return
a commandFailed error; the out-of-bounds branch is reachable. -/
theorem c9_exec_empty_args_panics (env : Env) :
    executeSubcommand env ["exec"] = RunResult.panicked ∧
    execSub env [] = RunResult.panicked ∧
    ∀ msg, execSub env [] ≠ RunResult.err (ChError.commandFailed msg) := by
  refine ⟨rfl, rfl, ?_⟩
  intro msg h
  exact RunResult.noConfusion h

/-- Witness for C9 at the concrete environment. -/
theorem c9_witness : executeSubcommand env0 ["exec"] = RunResult.panicked :=
  (c9_exec_empty_args_panics env0).1

/-- C8: a file entry whose storage path currently reads as the bytes
`hello` renders as the original path wrapped in single backticks on its own
line, then a fenced code block holding exactly `hello`, then one newline —
the content is not corrupted or re-encoded. -/
theorem c8_file_render_roundtrip (env : Env) (storagePath originalPath : String)
    (h : env.readFile storagePath = some "hello") :
    renderMarkdown env (Entry.file storagePath originalPath) =
      "`" ++ originalPath ++ "`\n" ++ "```\n" ++ "hello" ++ "```\n" := by
  simp only [renderMarkdown, h]

/-- Witness for C8: the file `f1` of the concrete environment reads as
`hello` and renders as claimed. -/
theorem c8_witness :
    env0.readFile "f1" = some "hello" ∧
    renderMarkdown env0 (Entry.file "f1" "f1") =
      "`" ++ "f1" ++ "`\n" ++ "```\n" ++ "hello" ++ "```\n" :=
  ⟨rfl, c8_file_render_roundtrip env0 "f1" "f1" rfl⟩

/-- C10: an argument that contains a colon always splits at the first colon
into exactly two parts, so the `invalid remote file path` branch is dead:
neither attach nor insert ever returns that error, for any environment and
any argument list. -/
theorem c10_invalid_remote_unreachable (env : Env) (args : List String) (p : String) :
    attachSub env args ≠ RunResult.err (ChError.invalidRemotePath p) ∧
    insertSub env args ≠ RunResult.err (ChError.invalidRemotePath p) ∧
    (∀ s, goContainsColon s = true → (goSplitN2Colon s).length = 2) := by
  refine ⟨attachSub_no_invalid env args p, insertSub_no_invalid env args p, ?_⟩
  intro s hs
  obtain ⟨a, b, hab⟩ := goSplitN2Colon_two s hs
  rw [hab]
  rfl

/-- Witness for C10 at a concrete colon-bearing argument. -/
theorem c10_witness :
    attachSub env0 ["host:file"] ≠ RunResult.err (ChError.invalidRemotePath "host:file") ∧
    (goSplitN2Colon "host:file").length = 2 :=
  ⟨(c10_invalid_remote_unreachable env0 ["host:file"] "host:file").1,
   (c10_invalid_remote_unreachable env0 ["host:file"] "host:file").2.2 "host:file" rfl⟩

end Ch
